import Mathlib

/-!
Verification of the NMEA 0183 sentence decoder and AIS armor codec.

Strings are modelled as lists of byte values (`List Nat`); Go's `int64`
is modelled as `Int`; fallible operations return `Except`/`Option` or a
value paired with an optional error, mirroring Go's `(value, error)`
results.  A Go panic is modelled as the `none` branch of an `Option`
result.  The repository contains two revisions of the parser; the
definitions suffixed `V1` model the earlier revision (which verifies the
checksum before decoding) and those suffixed `V2` the later revision
(which decodes first and reports a mismatch afterwards).

Floating-point valued fields (`number` on float kinds, `latlon`) are not
part of the schema model: their semantics is IEEE-754 double arithmetic
via `strconv.ParseFloat` and `math.Modf`, which has no faithful
kernel-executable embedding here.
-/

/-- Error values of the package (both revisions), plus the error kinds of
`strconv` (`syntaxErr`, `rangeErr`) and `time` (`timeParse`) that the code
surfaces verbatim. -/
inductive Err where
  | tooShort
  | noSigil
  | checksum
  | notRegistered
  | nmeaType
  | typeErr
  | lateType
  | missingType
  | badMatcher
  | badBinary
  | syntaxErr
  | rangeErr
  | timeParse
deriving DecidableEq

/-- Decimal digit byte. -/
def isDigit (c : Nat) : Bool := 48 ≤ c && c ≤ 57

/-- Hexadecimal digit byte, as accepted by `strconv.ParseInt` base 16. -/
def isHexDigit (c : Nat) : Bool :=
  (48 ≤ c && c ≤ 57) || (97 ≤ c && c ≤ 102) || (65 ≤ c && c ≤ 70)

/-- Value of a hexadecimal digit byte. -/
def hexVal (c : Nat) : Nat :=
  if 48 ≤ c && c ≤ 57 then c - 48
  else if 97 ≤ c && c ≤ 102 then c - 97 + 10
  else if 65 ≤ c && c ≤ 70 then c - 65 + 10
  else 0

/-- Accumulated value of a decimal digit string. -/
def digitsVal10 (ds : List Nat) : Nat := ds.foldl (fun a d => 10 * a + (d - 48)) 0

/-- Accumulated value of a hexadecimal digit string. -/
def digitsVal16 (ds : List Nat) : Nat := ds.foldl (fun a d => 16 * a + hexVal d) 0

/-- Model of Go `strconv.ParseInt(s, 16, 8)`: optional sign, hex digits,
signed 8-bit range; any failure (syntax or range) is an error, as the code
returns the error unconditionally. -/
def parseIntHex8 (s : List Nat) : Except Err Int :=
  match s with
  | [] => .error .syntaxErr
  | c :: rest =>
    let p : Bool × List Nat :=
      if c = 43 then (false, rest) else if c = 45 then (true, rest) else (false, s)
    if p.2.isEmpty then .error .syntaxErr
    else if p.2.all isHexDigit then
      let v := digitsVal16 p.2
      if p.1 then (if v ≤ 128 then .ok (-(v : Int)) else .error .rangeErr)
      else (if v ≤ 127 then .ok (v : Int) else .error .rangeErr)
    else .error .syntaxErr

/-- Model of Go `strconv.ParseInt(s, 10, bits)` (`bits = 0` means the
64-bit platform int). -/
def parseInt10 (s : List Nat) (bits : Nat) : Except Err Int :=
  let b := if bits = 0 then 64 else bits
  match s with
  | [] => .error .syntaxErr
  | c :: rest =>
    let p : Bool × List Nat :=
      if c = 43 then (false, rest) else if c = 45 then (true, rest) else (false, s)
    if p.2.isEmpty then .error .syntaxErr
    else if p.2.all isDigit then
      let v := digitsVal10 p.2
      if p.1 then (if v ≤ 2 ^ (b - 1) then .ok (-(v : Int)) else .error .rangeErr)
      else (if v < 2 ^ (b - 1) then .ok (v : Int) else .error .rangeErr)
    else .error .syntaxErr

/-- Model of Go `strconv.ParseUint(s, 10, bits)`. -/
def parseUint10 (s : List Nat) (bits : Nat) : Except Err Nat :=
  let b := if bits = 0 then 64 else bits
  match s with
  | [] => .error .syntaxErr
  | _ =>
    if s.all isDigit then
      let v := digitsVal10 s
      if v < 2 ^ b then .ok v else .error .rangeErr
    else .error .syntaxErr

/-- The `checksum` function: running XOR of the byte string. -/
def checksum (s : List Nat) : Nat := s.foldl (fun a b => a ^^^ b) 0

/-- Model of `strings.Split(s, ",")`: tokenization on the comma byte,
preserving empty tokens; the result is never empty. -/
def splitComma : List Nat → List (List Nat)
  | [] => [[]]
  | c :: rest =>
    match splitComma rest with
    | [] => if c = 44 then [[], []] else [[c]]
    | t :: ts => if c = 44 then [] :: t :: ts else (c :: t) :: ts

/-- Model of `strings.Index(s, "*")`: index of the first `*` byte. -/
def findStar : List Nat → Option Nat
  | [] => none
  | c :: rest => if c = 42 then some 0 else (findStar rest).map (· + 1)

/-- Model of Go `time.Time` restricted to the components the two fixed
layouts can produce. -/
structure DateTime where
  year : Nat
  month : Nat
  day : Nat
  hour : Nat
  minute : Nat
  second : Nat
  nanos : Nat
deriving DecidableEq

/-- The zero `time.Time`: January 1, year 1, 00:00:00 UTC. -/
def zeroDT : DateTime := ⟨1, 1, 1, 0, 0, 0, 0⟩

/-- Days in a month of the proleptic Gregorian calendar used by `time`. -/
def daysIn (m y : Nat) : Nat :=
  if m = 2 then (if y % 4 = 0 ∧ (y % 100 ≠ 0 ∨ y % 400 = 0) then 29 else 28)
  else if m = 4 ∨ m = 6 ∨ m = 9 ∨ m = 11 then 30 else 31

/-- Model of `time.ParseInLocation("020106", field, time.UTC)`: exactly six
digits DDMMYY, two-digit year pivoted at 69, day validated against the
month. -/
def goParseDate (tok : List Nat) : Except Err DateTime :=
  match tok with
  | [a, b, c, d, g, k] =>
    if [a, b, c, d, g, k].all isDigit then
      let dd := 10 * (a - 48) + (b - 48)
      let mm := 10 * (c - 48) + (d - 48)
      let yy := 10 * (g - 48) + (k - 48)
      let year := if yy < 69 then 2000 + yy else 1900 + yy
      if 1 ≤ mm ∧ mm ≤ 12 ∧ 1 ≤ dd ∧ dd ≤ daysIn mm year then
        .ok ⟨year, mm, dd, 0, 0, 0, 0⟩
      else .error .timeParse
    else .error .timeParse
  | _ => .error .timeParse

/-- Model of `time.ParseInLocation("150405", field, time.UTC)`: six digits
HHMMSS with an optional fractional-second suffix (a missing date parses as
year 0, month 1, day 1). -/
def goParseTime (tok : List Nat) : Except Err DateTime :=
  match tok with
  | h1 :: h2 :: m1 :: m2 :: s1 :: s2 :: rest =>
    if [h1, h2, m1, m2, s1, s2].all isDigit then
      let hh := 10 * (h1 - 48) + (h2 - 48)
      let mi := 10 * (m1 - 48) + (m2 - 48)
      let ss := 10 * (s1 - 48) + (s2 - 48)
      let frac : Option Nat :=
        match rest with
        | [] => some 0
        | 46 :: ds =>
          if ds ≠ [] ∧ ds.length ≤ 9 ∧ ds.all isDigit then
            some (digitsVal10 ds * 10 ^ (9 - ds.length))
          else none
        | _ => none
      match frac with
      | none => .error .timeParse
      | some ns =>
        if hh ≤ 23 ∧ mi ≤ 59 ∧ ss ≤ 59 then .ok ⟨0, 1, 1, hh, mi, ss, ns⟩
        else .error .timeParse
    else .error .timeParse
  | _ => .error .timeParse

/-- Semantic converter tags usable on non-type, non-checksum fields, paired
with the destination field's declared shape (`num true b` is a signed
integer field of `b` bits, `num false b` unsigned; `b = 0` is the platform
int). -/
inductive Conv where
  | num (signed : Bool) (bits : Nat)
  | str
  | date
  | time

/-- One struct-field descriptor of a record schema, as read off the struct
tags by `parseTo`: `padding` is a field with no `nmea` tag; `typeLit tag`
is a field named `Type` whose tag is a literal matcher; `typePat ok closed
compiles` is a field named `Type` with a `/…/` tag, `ok` being the
compiled expression's match predicate, `closed` whether the tag ends in
`/` and `compiles` whether the expression compiles; `conv` is a
converter-tagged field and `cksum signed` an integer field tagged
`checksum`. -/
inductive Desc where
  | padding
  | typeLit (tag : List Nat)
  | typePat (ok : List Nat → Bool) (closed : Bool) (compiles : Bool)
  | conv (c : Conv)
  | cksum (signed : Bool)

/-- A decoded field value. -/
inductive FieldVal where
  | int (v : Int)
  | uint (v : Nat)
  | str (s : List Nat)
  | dt (d : DateTime)
deriving DecidableEq

/-- A record instance: one value per schema descriptor, by position. -/
abbrev Record := List FieldVal

/-- The Go zero value of the field a descriptor describes. -/
def zeroOf : Desc → FieldVal
  | .padding => .int 0
  | .typeLit _ => .str []
  | .typePat _ _ _ => .str []
  | .conv (.num true _) => .int 0
  | .conv (.num false _) => .uint 0
  | .conv .str => .str []
  | .conv .date => .dt zeroDT
  | .conv .time => .dt zeroDT
  | .cksum true => .int 0
  | .cksum false => .uint 0

/-- The semantic converters `setNumber`/`setString`/`setDate`/`setTime`:
empty input yields an integer field's zero (inside `setInteger`), strings
are copied verbatim. -/
def convert : Conv → List Nat → Except Err FieldVal
  | .num true bits, tok =>
    if tok.isEmpty then .ok (.int 0) else (parseInt10 tok bits).map .int
  | .num false bits, tok =>
    if tok.isEmpty then .ok (.uint 0) else (parseUint10 tok bits).map .uint
  | .str, tok => .ok (.str tok)
  | .date, tok => (goParseDate tok).map .dt
  | .time, tok => (goParseTime tok).map .dt

/-- One iteration of the second revision's `parseTo` loop at descriptor
index `i`: returns the updated record, the updated `hasType` flag and an
optional error.  On a type mismatch the raw token is stored before the
error is returned (`f.SetString(fields[i])`). -/
def stepV2 (d : Desc) (i : Nat) (toks : List (List Nat)) (sum : Int)
    (rec : Record) (ht : Bool) : Record × Bool × Option Err :=
  match d with
  | .padding => (rec, ht, none)
  | .typeLit tag =>
    if i ≠ 0 then (rec, ht, some .lateType)
    else if tag ≠ toks.headD [] then (rec.set i (.str (toks.headD [])), ht, some .nmeaType)
    else (rec.set i (.str (toks.headD [])), true, none)
  | .typePat ok closed compiles =>
    if i ≠ 0 then (rec, ht, some .lateType)
    else if closed = false then (rec, ht, some .badMatcher)
    else if compiles = false then (rec, ht, some .badMatcher)
    else if ok (toks.headD []) = false then
      (rec.set i (.str (toks.headD [])), ht, some .nmeaType)
    else (rec.set i (.str (toks.headD [])), true, none)
  | .conv c =>
    if toks.length ≤ i then (rec, ht, none)
    else
      match convert c (toks.getD i []) with
      | .error e => (rec, ht, some e)
      | .ok v => (rec.set i v, ht, none)
  | .cksum signed =>
    if signed then (rec.set i (.int sum), ht, none)
    else (rec.set i (.uint ((sum % (2 : Int) ^ 64).toNat)), ht, none)

/-- The second revision's `parseTo` loop over the remaining descriptors,
`i` being the index of the first one. -/
def parseToLoopV2 : List Desc → Nat → List (List Nat) → Int → Record → Bool →
    Record × Bool × Option Err
  | [], _, _, _, rec, ht => (rec, ht, none)
  | d :: ds, i, toks, sum, rec, ht =>
    match stepV2 d i toks sum rec ht with
    | (rec', ht', none) => parseToLoopV2 ds (i + 1) toks sum rec' ht'
    | (rec', ht', some e) => (rec', ht', some e)

/-- The second revision's `parseTo`: runs the loop on a freshly zeroed
record and applies the final missing-type check. -/
def parseToV2 (schema : List Desc) (toks : List (List Nat)) (sum : Int) :
    Record × Option Err :=
  match parseToLoopV2 schema 0 toks sum (schema.map zeroOf) false with
  | (rec, ht, none) => (rec, if ht then none else some .missingType)
  | (rec, _, some e) => (rec, some e)

/-- One iteration of the first revision's `parseTo` loop: identical to the
second except that a type mismatch returns `errType` without storing the
token. -/
def stepV1 (d : Desc) (i : Nat) (toks : List (List Nat)) (sum : Int)
    (rec : Record) (ht : Bool) : Record × Bool × Option Err :=
  match d with
  | .padding => (rec, ht, none)
  | .typeLit tag =>
    if i ≠ 0 then (rec, ht, some .lateType)
    else if tag ≠ toks.headD [] then (rec, ht, some .typeErr)
    else (rec.set i (.str (toks.headD [])), true, none)
  | .typePat ok closed compiles =>
    if i ≠ 0 then (rec, ht, some .lateType)
    else if closed = false then (rec, ht, some .badMatcher)
    else if compiles = false then (rec, ht, some .badMatcher)
    else if ok (toks.headD []) = false then (rec, ht, some .typeErr)
    else (rec.set i (.str (toks.headD [])), true, none)
  | .conv c =>
    if toks.length ≤ i then (rec, ht, none)
    else
      match convert c (toks.getD i []) with
      | .error e => (rec, ht, some e)
      | .ok v => (rec.set i v, ht, none)
  | .cksum signed =>
    if signed then (rec.set i (.int sum), ht, none)
    else (rec.set i (.uint ((sum % (2 : Int) ^ 64).toNat)), ht, none)

/-- The first revision's `parseTo` loop. -/
def parseToLoopV1 : List Desc → Nat → List (List Nat) → Int → Record → Bool →
    Record × Bool × Option Err
  | [], _, _, _, rec, ht => (rec, ht, none)
  | d :: ds, i, toks, sum, rec, ht =>
    match stepV1 d i toks sum rec ht with
    | (rec', ht', none) => parseToLoopV1 ds (i + 1) toks sum rec' ht'
    | (rec', ht', some e) => (rec', ht', some e)

/-- The first revision's `parseTo`. -/
def parseToV1 (schema : List Desc) (toks : List (List Nat)) (sum : Int) :
    Record × Option Err :=
  match parseToLoopV1 schema 0 toks sum (schema.map zeroOf) false with
  | (rec, ht, none) => (rec, if ht then none else some .missingType)
  | (rec, _, some e) => (rec, some e)

/-- The type registry, as the lookup function `registry[fields[0]]`
provides it (registered destinations are structs, i.e. schemas). -/
abbrev Registry := List Nat → Option (List Desc)

/-- The second revision's `ParseTo` on a freshly zeroed destination record
of the given schema (the reflection pointer/struct checks on `dst` are
outside the model): envelope checks, checksum extraction, decoding, and
the mismatch check after decoding. -/
def ParseToV2 (schema : List Desc) (sentence : List Nat) : Record × Option Err :=
  let zrec := schema.map zeroOf
  if sentence.length < 6 then (zrec, some .tooShort)
  else
    match sentence with
    | [] => (zrec, some .tooShort)
    | c :: rest =>
      if c ≠ 36 ∧ c ≠ 33 then (zrec, some .noSigil)
      else
        match findStar rest with
        | some k =>
          match parseIntHex8 (rest.drop (k + 1)) with
          | .error e => (zrec, some e)
          | .ok w =>
            let body := rest.take k
            let r := parseToV2 schema (splitComma body) w
            if (checksum body : Int) ≠ w then (r.1, some .checksum) else r
        | none => parseToV2 schema (splitComma rest) 0

/-- The registry lookup and decode shared by the second revision's
`Parse` after the envelope has been validated. -/
def lookupParse (reg : Registry) (toks : List (List Nat)) (sum : Int) :
    Option Record × Option Err :=
  match reg (toks.headD []) with
  | none => (none, some .notRegistered)
  | some schema =>
    let r := parseToV2 schema toks sum
    (some r.1, r.2)

/-- The second revision's `Parse`: like `ParseToV2` but resolving the
schema from the registry; the record is returned alongside the error, and
a checksum mismatch overrides the decode error. -/
def ParseV2 (reg : Registry) (sentence : List Nat) : Option Record × Option Err :=
  if sentence.length < 6 then (none, some .tooShort)
  else
    match sentence with
    | [] => (none, some .tooShort)
    | c :: rest =>
      if c ≠ 36 ∧ c ≠ 33 then (none, some .noSigil)
      else
        match findStar rest with
        | some k =>
          match parseIntHex8 (rest.drop (k + 1)) with
          | .error e => (none, some e)
          | .ok w =>
            let body := rest.take k
            match lookupParse reg (splitComma body) w with
            | (none, e) => (none, e)
            | (some rec, err) =>
              (some rec, if (checksum body : Int) ≠ w then some .checksum else err)
        | none => lookupParse reg (splitComma rest) 0

/-- The first revision's `ParseTo` on a freshly zeroed destination: the
checksum is verified before decoding, a mismatch short-circuits. -/
def ParseToV1 (schema : List Desc) (sentence : List Nat) : Record × Option Err :=
  let zrec := schema.map zeroOf
  if sentence.length < 6 then (zrec, some .tooShort)
  else
    match sentence with
    | [] => (zrec, some .tooShort)
    | c :: rest =>
      if c ≠ 36 ∧ c ≠ 33 then (zrec, some .noSigil)
      else
        match findStar rest with
        | some k =>
          match parseIntHex8 (rest.drop (k + 1)) with
          | .error e => (zrec, some e)
          | .ok w =>
            let body := rest.take k
            if (checksum body : Int) ≠ w then (zrec, some .checksum)
            else parseToV1 schema (splitComma body) w
        | none => parseToV1 schema (splitComma rest) 0

/-- The first revision's `Parse`: any error, including a checksum
mismatch or a decode error, returns a nil record. -/
def ParseV1 (reg : Registry) (sentence : List Nat) : Option Record × Option Err :=
  if sentence.length < 6 then (none, some .tooShort)
  else
    match sentence with
    | [] => (none, some .tooShort)
    | c :: rest =>
      if c ≠ 36 ∧ c ≠ 33 then (none, some .noSigil)
      else
        match findStar rest with
        | some k =>
          match parseIntHex8 (rest.drop (k + 1)) with
          | .error e => (none, some e)
          | .ok w =>
            let body := rest.take k
            if (checksum body : Int) ≠ w then (none, some .checksum)
            else
              match reg ((splitComma body).headD []) with
              | none => (none, some .notRegistered)
              | some schema =>
                match parseToV1 schema (splitComma body) w with
                | (_, some e) => (none, some e)
                | (rec, none) => (some rec, none)
        | none =>
          match reg ((splitComma rest).headD []) with
          | none => (none, some .notRegistered)
          | some schema =>
            match parseToV1 schema (splitComma rest) 0 with
            | (_, some e) => (none, some e)
            | (rec, none) => (some rec, none)

/-- Valid AIS armor character: in `'0'..'w'` and not in the excluded
band `'X'..'_'`. -/
def validArmor (c : Nat) : Prop := 48 ≤ c ∧ c ≤ 119 ∧ ¬(88 ≤ c ∧ c ≤ 95)

instance (c : Nat) : Decidable (validArmor c) := by
  unfold validArmor; infer_instance

/-- The armor value of a valid character: `c - '0'`, less 8 past the
excluded band. -/
def armSym (c : Nat) : Nat :=
  let v := c - 48
  if v > 40 then v - 8 else v

/-- `DeArmorAIS`: decodes ASCII armoring one character per 6-bit symbol.
On an invalid character the partially filled buffer (zero beyond the
failure point, same length as the input) is returned with the error, as
Go returns the preallocated `dst`. -/
def DeArmorAIS : List Nat → List Nat × Option Err
  | [] => ([], none)
  | b :: rest =>
    if b < 48 ∨ 119 < b ∨ (88 ≤ b ∧ b ≤ 95) then
      (List.replicate (rest.length + 1) 0, some .badBinary)
    else
      let r := DeArmorAIS rest
      (armSym b :: r.1, r.2)

/-- `bitAddr`: word index and bit position of bit `i` over the 6-bit
symbol buffer. -/
def bitAddr (i : Nat) : Nat × Nat := (i / 6, 5 - i % 6)

/-- Arithmetic model of `big.Int.SetBit` for a single-bit value `b`. -/
def natSetBit (x pos b : Nat) : Nat :=
  (x / 2 ^ (pos + 1)) * 2 ^ (pos + 1) + b * 2 ^ pos + x % 2 ^ pos

/-- One iteration of the bit-gathering loop of `AISBitField` at bit index
`i`: reads the bit and sets it at position `e - (i - s) - 1` of the
accumulator; `none` models the runtime panic of an out-of-range symbol
access. -/
def aisStep (b6 : List Nat) (s e acc i : Nat) : Option Nat :=
  let wb := bitAddr i
  match b6[wb.1]? with
  | none => none
  | some sym => some (natSetBit acc (e - (i - s) - 1) ((sym &&& (1 <<< wb.2)) >>> wb.2))

/-- The `for` loop of `AISBitField`: bit indices `s` to `e - 1` in order,
folding `aisStep` over a zero accumulator. -/
def aisLoop (b6 : List Nat) (s e : Nat) : Option Nat :=
  (List.range' s (e - s)).foldlM (aisStep b6 s e) 0

/-- Fueled helper for `natToBytes` (structural recursion; the fuel is an
upper bound on the value, which shrinks by a factor 256 each step). -/
def natToBytesAux : Nat → Nat → List Nat
  | _, 0 => []
  | 0, _ => []
  | fuel + 1, n => natToBytesAux fuel (n / 256) ++ [n % 256]

/-- Minimal big-endian byte serialization of a natural number, as
`big.Int.Bytes` produces it (empty for zero, no leading zero byte). -/
def natToBytes (n : Nat) : List Nat := natToBytesAux n n

/-- `AISBitField`: extracts bits `[s, e)` of the 6-bit symbol buffer into
packed bytes; `none` models the panics (explicit bounds panics and the
runtime index panic inside the loop). -/
def AISBitField (b6 : List Nat) (s e : Int) : Option (List Nat) :=
  if s < 0 ∨ e < 0 ∨ e < s then none
  else if s = e then some []
  else if (bitAddr s.toNat).1 > b6.length then none
  else
    match aisLoop b6 s.toNat e.toNat with
    | none => none
    | some bits =>
      let padding := (6 - (e.toNat - s.toNat) % 6) % 6
      some (natToBytes (bits >>> padding))

/-- The bit of the symbol buffer at overall index `i`, read from
`b6[i / 6]` at bit position `5 - (i % 6)`. -/
def bitOf (b6 : List Nat) (i : Nat) : Nat :=
  ((b6.getD (i / 6) 0) &&& (1 <<< (5 - i % 6))) >>> (5 - i % 6)

/-- MSB-first assembly of the bits of `[s, e)`: the first extracted bit is
most significant and the last extracted bit is the least significant bit
of the value. -/
def mAssemble (b6 : List Nat) (s e : Nat) : Nat :=
  (List.range' s (e - s)).foldl (fun a i => 2 * a + bitOf b6 i) 0

/-- Modelled from the spec: the packed bytes `ExtractBits` is described to
return, namely the MSB-first assembly (last extracted bit least
significant) right-shifted by `(6 - ((e - s) % 6)) % 6` and serialized. -/
def specBitField (b6 : List Nat) (s e : Nat) : List Nat :=
  natToBytes (mAssemble b6 s e >>> ((6 - (e - s) % 6) % 6))

/-- A descriptor that is neither type-tagged nor checksum-tagged (a
converter field or untagged padding). -/
def skippable (d : Desc) : Prop := (∃ c, d = .conv c) ∨ d = .padding

/-- A descriptor that may follow the last token without aborting
decoding: converter fields and padding are skipped, checksum fields do
not consume a token. -/
def tailSafe (d : Desc) : Prop :=
  (∃ c, d = .conv c) ∨ d = .padding ∨ ∃ b, d = .cksum b

/-- A type-tagged descriptor (a field named `Type` carrying an `nmea`
tag). -/
def isTypeDesc (d : Desc) : Prop :=
  (∃ t, d = .typeLit t) ∨ ∃ ok cl co, d = .typePat ok cl co

/-! Helper lemmas about the envelope. -/

theorem findStar_append (T H : List Nat) (h : 42 ∉ T) :
    findStar (T ++ 42 :: H) = some T.length := by
  induction T with
  | nil => simp [findStar]
  | cons c rest ih =>
    have hc : c ≠ 42 := fun hc => h (hc ▸ List.mem_cons_self c rest)
    have hrest : 42 ∉ rest := fun hm => h (List.mem_cons_of_mem c hm)
    simp [findStar, hc, ih hrest]

theorem checksum_go (a : Nat) (l : List Nat) :
    l.foldl (fun x b => x ^^^ b) a = a ^^^ checksum l := by
  induction l generalizing a with
  | nil => simp [checksum]
  | cons b rest ih =>
    simp only [checksum, List.foldl_cons]
    rw [ih (a ^^^ b), ih (0 ^^^ b)]
    simp [Nat.xor_assoc]

theorem checksum_append (A B : List Nat) :
    checksum (A ++ B) = checksum A ^^^ checksum B := by
  unfold checksum
  rw [List.foldl_append, checksum_go]
  rfl

theorem xor_cancel_left' (a b : Nat) : a ^^^ (a ^^^ b) = b := by
  rw [← Nat.xor_assoc, Nat.xor_self, Nat.zero_xor]

theorem checksum_set (T : List Nat) (j : Nat) (hj : j < T.length) (c : Nat)
    (hne : c ≠ T[j]) : checksum (T.set j c) ≠ checksum T := by
  have hT : T = T.take j ++ T[j] :: T.drop (j + 1) := by
    conv_lhs => rw [← List.take_append_drop j T, List.drop_eq_getElem_cons hj]
  have hset : T.set j c = T.take j ++ c :: T.drop (j + 1) := by
    rw [List.set_eq_take_append_cons_drop, if_pos hj]
  intro heq
  rw [hset, checksum_append] at heq
  conv_rhs at heq => rw [hT, checksum_append]
  have h1 : checksum (c :: T.drop (j + 1)) = checksum (T[j] :: T.drop (j + 1)) := by
    have := congrArg (fun x => checksum (T.take j) ^^^ x) heq
    simpa [xor_cancel_left'] using this
  simp only [checksum, List.foldl_cons, Nat.zero_xor] at h1
  rw [checksum_go c, checksum_go (T[j])] at h1
  have h2 := congrArg (fun x => x ^^^ checksum (T.drop (j + 1))) h1
  simp only [Nat.xor_cancel_right] at h2
  exact hne h2

theorem take_star (T H : List Nat) : (T ++ 42 :: H).take T.length = T :=
  List.take_left T (42 :: H)

theorem drop_star (T H : List Nat) : (T ++ 42 :: H).drop (T.length + 1) = H := by
  have h : T ++ 42 :: H = (T ++ [42]) ++ H := by simp
  rw [h, List.drop_left']
  simp

theorem parseIntHex8_two (d1 d2 : Nat) (h1 : isHexDigit d1 = true)
    (h2 : isHexDigit d2 = true) (hle : 16 * hexVal d1 + hexVal d2 ≤ 127) :
    parseIntHex8 [d1, d2] = .ok ((16 * hexVal d1 + hexVal d2 : Nat) : Int) := by
  have h1' := h1
  unfold isHexDigit at h1'
  simp only [Bool.or_eq_true, Bool.and_eq_true, decide_eq_true_eq] at h1'
  have hd43 : d1 ≠ 43 := by omega
  have hd45 : d1 ≠ 45 := by omega
  have hall : [d1, d2].all isHexDigit = true := by
    simp [List.all_cons, h1, h2]
  have hv : digitsVal16 [d1, d2] = 16 * hexVal d1 + hexVal d2 := by
    simp [digitsVal16]
  unfold parseIntHex8
  simp only [hd43, if_false, hd45, hall, hv, List.isEmpty_cons]
  rw [if_neg (by simp), if_pos (by simp [List.all_cons, h1, h2]), if_pos hle]
  simp

theorem ParseToV2_star_ok (schema : List Desc) (T H : List Nat) (w : Int)
    (h42 : 42 ∉ T) (hlen : 4 ≤ T.length + H.length)
    (hw : parseIntHex8 H = .ok w) (heq : (checksum T : Int) = w) :
    ParseToV2 schema (36 :: (T ++ 42 :: H)) = parseToV2 schema (splitComma T) w := by
  have hL : ¬(36 :: (T ++ 42 :: H)).length < 6 := by
    simp only [List.length_cons, List.length_append]; omega
  simp only [ParseToV2, if_neg hL, ne_eq, findStar_append T H h42, drop_star, hw,
    take_star]
  simp [heq]

theorem ParseToV2_star_mismatch (schema : List Desc) (T H : List Nat) (w : Int)
    (h42 : 42 ∉ T) (hlen : 4 ≤ T.length + H.length)
    (hw : parseIntHex8 H = .ok w) (hne : (checksum T : Int) ≠ w) :
    ParseToV2 schema (36 :: (T ++ 42 :: H)) =
      ((parseToV2 schema (splitComma T) w).1, some .checksum) := by
  have hL : ¬(36 :: (T ++ 42 :: H)).length < 6 := by
    simp only [List.length_cons, List.length_append]; omega
  simp only [ParseToV2, if_neg hL, ne_eq, findStar_append T H h42, drop_star, hw,
    take_star]
  simp [hne]

theorem ParseV2_star_ok (reg : Registry) (T H : List Nat) (w : Int)
    (h42 : 42 ∉ T) (hlen : 4 ≤ T.length + H.length)
    (hw : parseIntHex8 H = .ok w) (heq : (checksum T : Int) = w) :
    ParseV2 reg (36 :: (T ++ 42 :: H)) = lookupParse reg (splitComma T) w := by
  have hL : ¬(36 :: (T ++ 42 :: H)).length < 6 := by
    simp only [List.length_cons, List.length_append]; omega
  simp only [ParseV2, if_neg hL, ne_eq, findStar_append T H h42, drop_star, hw,
    take_star]
  simp only [heq, not_true_eq_false, if_false, ite_self]
  cases h : lookupParse reg (splitComma T) w with
  | mk a b =>
    cases a with
    | none => simp
    | some rec => simp

theorem ParseV2_star_mismatch (reg : Registry) (schema : List Desc)
    (T H : List Nat) (w : Int)
    (h42 : 42 ∉ T) (hlen : 4 ≤ T.length + H.length)
    (hw : parseIntHex8 H = .ok w) (hne : (checksum T : Int) ≠ w)
    (hreg : reg ((splitComma T).headD []) = some schema) :
    ParseV2 reg (36 :: (T ++ 42 :: H)) =
      (some (parseToV2 schema (splitComma T) w).1, some .checksum) := by
  have hL : ¬(36 :: (T ++ 42 :: H)).length < 6 := by
    simp only [List.length_cons, List.length_append]; omega
  have hl : lookupParse reg (splitComma T) w =
      (some (parseToV2 schema (splitComma T) w).1,
       (parseToV2 schema (splitComma T) w).2) := by
    unfold lookupParse; rw [hreg]
  simp only [ParseV2, if_neg hL, ne_eq, findStar_append T H h42, drop_star, hw,
    take_star, hl]
  simp [hne]

/-! Helper lemmas about the field decoder loop. -/

theorem stepV2_skip (c : Conv) (i : Nat) (toks : List (List Nat)) (sum : Int)
    (rec : Record) (ht : Bool) (hi : toks.length ≤ i) :
    stepV2 (.conv c) i toks sum rec ht = (rec, ht, none) := by
  simp [stepV2, hi]

theorem stepV2_snd_irrel (d : Desc) (i : Nat) (toks : List (List Nat)) (sum : Int)
    (rec rec' : Record) (ht : Bool) :
    (stepV2 d i toks sum rec ht).2 = (stepV2 d i toks sum rec' ht).2 := by
  cases d with
  | padding => rfl
  | typeLit tag => simp only [stepV2]; split_ifs <;> rfl
  | typePat ok closed compiles => simp only [stepV2]; split_ifs <;> rfl
  | conv c =>
    simp only [stepV2]
    split_ifs with h
    · rfl
    · cases convert c (toks.getD i []) <;> rfl
  | cksum b => simp only [stepV2]; split_ifs <;> rfl

theorem stepV2_len (d : Desc) (i : Nat) (toks : List (List Nat)) (sum : Int)
    (rec : Record) (ht : Bool) :
    (stepV2 d i toks sum rec ht).1.length = rec.length := by
  cases d with
  | padding => rfl
  | typeLit tag => simp only [stepV2]; split_ifs <;> simp
  | typePat ok closed compiles => simp only [stepV2]; split_ifs <;> simp
  | conv c =>
    simp only [stepV2]
    split_ifs with h
    · rfl
    · cases convert c (toks.getD i []) <;> simp
  | cksum b => simp only [stepV2]; split_ifs <;> simp

theorem stepV2_frame (d : Desc) (i : Nat) (toks : List (List Nat)) (sum : Int)
    (rec tail : Record) (ht : Bool) (hi : i < rec.length) :
    stepV2 d i toks sum (rec ++ tail) ht =
      ((stepV2 d i toks sum rec ht).1 ++ tail, (stepV2 d i toks sum rec ht).2) := by
  cases d with
  | padding => rfl
  | typeLit tag =>
    simp only [stepV2]
    split_ifs <;> simp [List.set_append_left _ _ hi]
  | typePat ok closed compiles =>
    simp only [stepV2]
    split_ifs <;> simp [List.set_append_left _ _ hi]
  | conv c =>
    simp only [stepV2]
    split_ifs with h
    · rfl
    · cases convert c (toks.getD i []) <;> simp [List.set_append_left _ _ hi]
  | cksum b =>
    simp only [stepV2]
    split_ifs <;> simp [List.set_append_left _ _ hi]

theorem stepV2_getElem_ne (d : Desc) (i : Nat) (toks : List (List Nat)) (sum : Int)
    (rec : Record) (ht : Bool) (j : Nat) (hj : j ≠ i) :
    ((stepV2 d i toks sum rec ht).1)[j]? = rec[j]? := by
  cases d with
  | padding => rfl
  | typeLit tag =>
    simp only [stepV2]
    split_ifs <;> simp [List.getElem?_set_ne (fun h => hj h.symm)]
  | typePat ok closed compiles =>
    simp only [stepV2]
    split_ifs <;> simp [List.getElem?_set_ne (fun h => hj h.symm)]
  | conv c =>
    simp only [stepV2]
    split_ifs with h
    · rfl
    · cases convert c (toks.getD i []) <;>
        simp [List.getElem?_set_ne (fun h => hj h.symm)]
  | cksum b =>
    simp only [stepV2]
    split_ifs <;> simp [List.getElem?_set_ne (fun h => hj h.symm)]

theorem stepV2_ht_not_type (d : Desc) (i : Nat) (toks : List (List Nat)) (sum : Int)
    (rec : Record) (ht : Bool) (hd : ¬isTypeDesc d) :
    (stepV2 d i toks sum rec ht).2.1 = ht := by
  cases d with
  | padding => rfl
  | typeLit tag => exact absurd (Or.inl ⟨tag, rfl⟩) hd
  | typePat ok closed compiles => exact absurd (Or.inr ⟨ok, closed, compiles, rfl⟩) hd
  | conv c =>
    simp only [stepV2]
    split_ifs with h
    · rfl
    · cases convert c (toks.getD i []) <;> rfl
  | cksum b => simp only [stepV2]; split_ifs <;> rfl

theorem loopV2_append_err (A B : List Desc) (i : Nat) (toks : List (List Nat))
    (sum : Int) (rec : Record) (ht : Bool) (r : Record) (hb : Bool) (e : Err)
    (h : parseToLoopV2 A i toks sum rec ht = (r, hb, some e)) :
    parseToLoopV2 (A ++ B) i toks sum rec ht = (r, hb, some e) := by
  induction A generalizing i rec ht with
  | nil => simp [parseToLoopV2] at h
  | cons d ds ih =>
    simp only [List.cons_append, parseToLoopV2] at h ⊢
    cases hstep : stepV2 d i toks sum rec ht with
    | mk r1 hb1 =>
      cases hb1 with
      | mk h1 o1 =>
        rw [hstep] at h
        cases o1 with
        | none => exact ih (i + 1) r1 h1 h
        | some e1 => exact h

theorem loopV2_append_ok (A B : List Desc) (i : Nat) (toks : List (List Nat))
    (sum : Int) (rec : Record) (ht : Bool) (r : Record) (hb : Bool)
    (h : parseToLoopV2 A i toks sum rec ht = (r, hb, none)) :
    parseToLoopV2 (A ++ B) i toks sum rec ht =
      parseToLoopV2 B (i + A.length) toks sum r hb := by
  induction A generalizing i rec ht with
  | nil =>
    simp only [parseToLoopV2] at h
    cases h
    simp [parseToLoopV2]
  | cons d ds ih =>
    simp only [List.cons_append, parseToLoopV2] at h ⊢
    cases hstep : stepV2 d i toks sum rec ht with
    | mk r1 hb1 =>
      cases hb1 with
      | mk h1 o1 =>
        rw [hstep] at h
        cases o1 with
        | none =>
          have h' : parseToLoopV2 ds (i + 1) toks sum r1 h1 = (r, hb, none) := h
          have goal2 : parseToLoopV2 (ds ++ B) (i + 1) toks sum r1 h1 =
              parseToLoopV2 B (i + 1 + ds.length) toks sum r hb := ih (i + 1) r1 h1 h'
          show parseToLoopV2 (ds ++ B) (i + 1) toks sum r1 h1 =
              parseToLoopV2 B (i + (d :: ds).length) toks sum r hb
          rw [goal2]
          congr 1
          simp
          omega
        | some e1 => simp at h

theorem loopV2_snd_irrel (ds : List Desc) (i : Nat) (toks : List (List Nat))
    (sum : Int) (rec rec' : Record) (ht : Bool) :
    (parseToLoopV2 ds i toks sum rec ht).2 = (parseToLoopV2 ds i toks sum rec' ht).2 := by
  induction ds generalizing i rec rec' ht with
  | nil => rfl
  | cons d rest ih =>
    simp only [parseToLoopV2]
    have hsnd := stepV2_snd_irrel d i toks sum rec rec' ht
    cases h1 : stepV2 d i toks sum rec ht with
    | mk r1 hb1 =>
      cases h2 : stepV2 d i toks sum rec' ht with
      | mk r2 hb2 =>
        rw [h1, h2] at hsnd
        simp only at hsnd
        subst hsnd
        cases hb1 with
        | mk t1 o1 =>
          cases o1 with
          | none => exact ih (i + 1) r1 r2 t1
          | some e => rfl

theorem loopV2_frame (ds : List Desc) (i : Nat) (toks : List (List Nat))
    (sum : Int) (rec tail : Record) (ht : Bool) (hle : i + ds.length ≤ rec.length) :
    parseToLoopV2 ds i toks sum (rec ++ tail) ht =
      ((parseToLoopV2 ds i toks sum rec ht).1 ++ tail,
       (parseToLoopV2 ds i toks sum rec ht).2) := by
  induction ds generalizing i rec ht with
  | nil => rfl
  | cons d rest ih =>
    have hi : i < rec.length := by simp at hle; omega
    simp only [parseToLoopV2, stepV2_frame d i toks sum rec tail ht hi]
    cases hstep : stepV2 d i toks sum rec ht with
    | mk r hb =>
      cases hb with
      | mk h' oe =>
        cases oe with
        | none =>
          simp only
          have hr : r.length = rec.length := by
            have := stepV2_len d i toks sum rec ht
            rw [hstep] at this
            exact this
          exact ih (i + 1) r h' (by simp at hle; omega)
        | some e => rfl

theorem loopV2_tail_skip (B : List Desc) (i : Nat) (toks : List (List Nat))
    (sum : Int) (rec : Record) (ht : Bool) (hi : toks.length ≤ i)
    (hB : ∀ d ∈ B, skippable d) :
    parseToLoopV2 B i toks sum rec ht = (rec, ht, none) := by
  induction B generalizing i rec ht with
  | nil => rfl
  | cons d rest ih =>
    have hd := hB d (List.mem_cons_self d rest)
    have hrest : ∀ d ∈ rest, skippable d := fun x hx => hB x (List.mem_cons_of_mem d hx)
    cases hd with
    | inl hc =>
      obtain ⟨c, rfl⟩ := hc
      simp only [parseToLoopV2, stepV2_skip c i toks sum rec ht hi]
      exact ih (i + 1) rec ht (by omega) hrest
    | inr hp =>
      subst hp
      simp only [parseToLoopV2, stepV2]
      exact ih (i + 1) rec ht (by omega) hrest

theorem loopV2_tail_safe (B : List Desc) (i : Nat) (toks : List (List Nat))
    (sum : Int) (rec : Record) (ht : Bool) (hi : toks.length ≤ i)
    (hB : ∀ d ∈ B, tailSafe d) :
    (parseToLoopV2 B i toks sum rec ht).2 = (ht, none) := by
  induction B generalizing i rec ht with
  | nil => rfl
  | cons d rest ih =>
    have hd := hB d (List.mem_cons_self d rest)
    have hrest : ∀ d ∈ rest, tailSafe d := fun x hx => hB x (List.mem_cons_of_mem d hx)
    cases hd with
    | inl hc =>
      obtain ⟨c, rfl⟩ := hc
      simp only [parseToLoopV2, stepV2_skip c i toks sum rec ht hi]
      exact ih (i + 1) rec ht (by omega) hrest
    | inr hrest' =>
      cases hrest' with
      | inl hp =>
        subst hp
        simp only [parseToLoopV2, stepV2]
        exact ih (i + 1) rec ht (by omega) hrest
      | inr hk =>
        obtain ⟨b, rfl⟩ := hk
        cases b with
        | true =>
          simp only [parseToLoopV2, stepV2, if_pos rfl]
          exact ih (i + 1) _ ht (by omega) hrest
        | false =>
          simp only [parseToLoopV2, stepV2]
          rw [if_neg (by simp)]
          exact ih (i + 1) _ ht (by omega) hrest

theorem loopV2_ht_not_type (ds : List Desc) (i : Nat) (toks : List (List Nat))
    (sum : Int) (rec : Record) (ht : Bool) (hds : ∀ d ∈ ds, ¬isTypeDesc d) :
    (parseToLoopV2 ds i toks sum rec ht).2.1 = ht := by
  induction ds generalizing i rec ht with
  | nil => rfl
  | cons d rest ih =>
    have hd := hds d (List.mem_cons_self d rest)
    have hrest : ∀ x ∈ rest, ¬isTypeDesc x := fun x hx => hds x (List.mem_cons_of_mem d hx)
    simp only [parseToLoopV2]
    have hh := stepV2_ht_not_type d i toks sum rec ht hd
    cases hstep : stepV2 d i toks sum rec ht with
    | mk r hb =>
      cases hb with
      | mk h' oe =>
        rw [hstep] at hh
        simp only at hh
        cases oe with
        | none => exact ((ih (i + 1) r h') hrest).trans hh
        | some e => exact hh

theorem loopV2_late_type (ds : List Desc) (i : Nat) (toks : List (List Nat))
    (sum : Int) (rec : Record) (ht : Bool) (p : Nat) (d : Desc)
    (hp : ds[p]? = some d) (htype : isTypeDesc d) (hip : i + p ≠ 0) :
    (parseToLoopV2 ds i toks sum rec ht).2.2 ≠ none := by
  induction ds generalizing i rec ht p with
  | nil => simp at hp
  | cons d0 rest ih =>
    cases p with
    | zero =>
      simp only [List.getElem?_cons_zero, Option.some_inj] at hp
      subst hp
      have hi : i ≠ 0 := by omega
      cases htype with
      | inl hl =>
        obtain ⟨t, rfl⟩ := hl
        simp [parseToLoopV2, stepV2, hi]
      | inr hr =>
        obtain ⟨ok, cl, co, rfl⟩ := hr
        simp [parseToLoopV2, stepV2, hi]
    | succ q =>
      simp only [List.getElem?_cons_succ] at hp
      simp only [parseToLoopV2]
      cases hstep : stepV2 d0 i toks sum rec ht with
      | mk r hb =>
        cases hb with
        | mk h' oe =>
          cases oe with
          | none => exact ih (i + 1) r h' q hp (by omega)
          | some e => simp

/-! Helper lemmas about the AIS codec. -/

theorem aisLoop_eq_aux (b6 : List Nat) (s e : Nat) :
    ∀ (n i F : Nat), s ≤ i → i + n ≤ e →
      (∀ j, i ≤ j → j < e → j / 6 < b6.length) →
      (List.range' i n).foldlM (aisStep b6 s e) (F * 2 ^ (e - (i - s))) =
        some ((List.range' i n).foldl (fun a j => 2 * a + bitOf b6 j) F *
          2 ^ (e - (i + n - s))) := by
  intro n
  induction n with
  | zero =>
    intro i F hsi hie hrange
    simp [List.foldlM]
  | succ m ih =>
    intro i F hsi hie hrange
    have hlt : i < e := by omega
    have hwlt : i / 6 < b6.length := hrange i (Nat.le_refl i) hlt
    rw [List.range'_succ, List.foldlM_cons]
    have hstep : aisStep b6 s e (F * 2 ^ (e - (i - s))) i =
        some ((2 * F + bitOf b6 i) * 2 ^ (e - (i + 1 - s))) := by
      unfold aisStep
      simp only [bitAddr]
      rw [List.getElem?_eq_getElem hwlt]
      show some (natSetBit (F * 2 ^ (e - (i - s))) (e - (i - s) - 1)
          ((b6[i / 6] &&& 1 <<< (5 - i % 6)) >>> (5 - i % 6))) = _
      have hbit : (b6[i / 6] &&& 1 <<< (5 - i % 6)) >>> (5 - i % 6) = bitOf b6 i := by
        unfold bitOf
        rw [List.getD_eq_getElem _ _ hwlt]
      rw [hbit]
      set pos := e - (i - s) - 1 with hposdef
      have hpos : e - (i - s) = pos + 1 := by omega
      have hexp : e - (i + 1 - s) = pos := by omega
      rw [hexp]
      unfold natSetBit
      rw [hpos]
      have hd : F * 2 ^ (pos + 1) / 2 ^ (pos + 1) = F :=
        Nat.mul_div_cancel F (Nat.pos_pow_of_pos _ (by omega))
      have hm : F * 2 ^ (pos + 1) % 2 ^ pos = 0 := by
        have hsplit : F * 2 ^ (pos + 1) = (F * 2) * 2 ^ pos := by ring
        rw [hsplit, Nat.mul_mod_left]
      rw [hd, hm]
      congr 1
      ring
    rw [hstep]
    show (List.range' (i + 1) m).foldlM (aisStep b6 s e)
        ((2 * F + bitOf b6 i) * 2 ^ (e - (i + 1 - s))) = _
    rw [ih (i + 1) (2 * F + bitOf b6 i) (by omega) (by omega)
      (fun j hj1 hj2 => hrange j (by omega) hj2)]
    rw [List.foldl_cons]
    have harith : e - (i + 1 + m - s) = e - (i + (m + 1) - s) := by omega
    rw [harith]

theorem aisLoop_panic (b6 : List Nat) (s e : Nat) :
    ∀ (n i acc : Nat), (∃ j, i ≤ j ∧ j < i + n ∧ b6.length ≤ j / 6) →
      (List.range' i n).foldlM (aisStep b6 s e) acc = none := by
  intro n
  induction n with
  | zero =>
    intro i acc hj
    obtain ⟨j, hij, hje, _⟩ := hj
    omega
  | succ m ih =>
    intro i acc hj
    obtain ⟨j, hij, hje, hjd⟩ := hj
    rw [List.range'_succ, List.foldlM_cons]
    by_cases hi : i / 6 < b6.length
    · have hstep : ∃ v, aisStep b6 s e acc i = some v := by
        unfold aisStep
        simp only [bitAddr]
        rw [List.getElem?_eq_getElem hi]
        exact ⟨_, rfl⟩
      obtain ⟨v, hv⟩ := hstep
      rw [hv]
      have hne : i ≠ j := by
        intro hcontr
        subst hcontr
        omega
      exact ih (i + 1) v ⟨j, by omega, by omega, hjd⟩
    · have hstep : aisStep b6 s e acc i = none := by
        unfold aisStep
        simp only [bitAddr]
        rw [List.getElem?_eq_none (by omega)]
      rw [hstep]
      rfl

theorem natToBytesAux_fuel (f1 : Nat) :
    ∀ (f2 n : Nat), n ≤ f1 → n ≤ f2 → natToBytesAux f1 n = natToBytesAux f2 n := by
  induction f1 with
  | zero =>
    intro f2 n h1 h2
    have hn : n = 0 := by omega
    subst hn
    cases f2 <;> rfl
  | succ g1 ih =>
    intro f2 n h1 h2
    cases n with
    | zero => cases f2 <;> rfl
    | succ k =>
      cases f2 with
      | zero => omega
      | succ g2 =>
        show natToBytesAux g1 ((k + 1) / 256) ++ [(k + 1) % 256] =
          natToBytesAux g2 ((k + 1) / 256) ++ [(k + 1) % 256]
        rw [ih g2 ((k + 1) / 256)
          (by omega)
          (by have := Nat.div_lt_self (by omega : 0 < k + 1) (by omega : 1 < 256); omega)]

theorem natToBytes_eq (n : Nat) :
    natToBytes n = if n = 0 then [] else natToBytes (n / 256) ++ [n % 256] := by
  cases n with
  | zero => rfl
  | succ k =>
    rw [if_neg (by omega)]
    show natToBytesAux k ((k + 1) / 256) ++ [(k + 1) % 256] = _
    rw [natToBytesAux_fuel k ((k + 1) / 256) ((k + 1) / 256)
      (by have := Nat.div_lt_self (by omega : 0 < k + 1) (by omega : 1 < 256); omega)
      (Nat.le_refl _)]
    rfl

theorem natToBytes_pos (n : Nat) (h : n ≠ 0) :
    ∃ hd tl, natToBytes n = hd :: tl ∧ 0 < hd := by
  induction n using Nat.strong_induction_on with
  | _ n ih =>
    rw [natToBytes_eq, if_neg h]
    by_cases hq : n / 256 = 0
    · rw [hq]
      refine ⟨n % 256, [], rfl, ?_⟩
      have hlt : n < 256 := by omega
      rw [Nat.mod_eq_of_lt hlt]
      omega
    · obtain ⟨hd, tl, heq, hpos⟩ := ih (n / 256)
        (Nat.div_lt_self (Nat.pos_of_ne_zero h) (by omega)) hq
      exact ⟨hd, tl ++ [n % 256], by rw [heq]; rfl, hpos⟩

theorem AISBitField_eq (b6 : List Nat) (s e : Nat) (hse : s ≤ e)
    (he : e ≤ 6 * b6.length) :
    AISBitField b6 (s : Int) (e : Int) =
      some (natToBytes ((mAssemble b6 s e * 2 ^ s) >>> ((6 - (e - s) % 6) % 6))) := by
  unfold AISBitField
  rw [if_neg (by omega)]
  by_cases hse' : s = e
  · subst hse'
    rw [if_pos rfl]
    have hm : mAssemble b6 s s = 0 := by
      unfold mAssemble
      rw [Nat.sub_self]
      rfl
    rw [hm]
    simp [natToBytes, natToBytesAux]
  · rw [if_neg (by exact_mod_cast hse')]
    have hslt : s < e := by omega
    have hsd : s / 6 < b6.length := by
      rw [Nat.div_lt_iff_lt_mul (by omega : 0 < 6)]
      omega
    rw [if_neg (by simp only [Int.toNat_natCast]; exact not_lt.mpr (Nat.le_of_lt hsd))]
    simp only [Int.toNat_natCast]
    have hloop := aisLoop_eq_aux b6 s e (e - s) s 0 (Nat.le_refl s) (by omega)
      (fun j hj1 hj2 => by rw [Nat.div_lt_iff_lt_mul (by omega : 0 < 6)]; omega)
    rw [show (0 : Nat) * 2 ^ (e - (s - s)) = 0 by ring] at hloop
    rw [show e - (s + (e - s) - s) = s by omega] at hloop
    show (match aisLoop b6 s e with
      | none => none
      | some bits => some (natToBytes (bits >>> ((6 - (e - s) % 6) % 6)))) = _
    unfold aisLoop
    rw [hloop]
    rfl

theorem AISBitField_beyond (b6 : List Nat) (s e : Nat) (hlt : s < e)
    (hbeyond : 6 * b6.length < e) :
    AISBitField b6 (s : Int) (e : Int) = none := by
  unfold AISBitField
  rw [if_neg (by omega)]
  rw [if_neg (by exact_mod_cast (by omega : s ≠ e))]
  by_cases hguard : (bitAddr (s : Int).toNat).1 > b6.length
  · rw [if_pos hguard]
  · rw [if_neg hguard]
    simp only [Int.toNat_natCast]
    have hpanic := aisLoop_panic b6 s e (e - s) s 0
      ⟨e - 1, by omega, by omega, by
        rw [Nat.le_div_iff_mul_le (by omega : 0 < 6)]
        omega⟩
    show (match aisLoop b6 s e with
      | none => none
      | some bits => some (natToBytes (bits >>> ((6 - (e - s) % 6) % 6)))) = none
    unfold aisLoop
    rw [hpanic]

theorem loopV2_untouched (ds : List Desc) : ∀ (i : Nat) (toks : List (List Nat))
    (sum : Int) (rec : Record) (ht : Bool) (j : Nat),
    (∀ k (d : Desc), ds[k]? = some d → i + k = j →
      (∃ c, d = .conv c) ∧ toks.length ≤ j) →
    ((parseToLoopV2 ds i toks sum rec ht).1)[j]? = rec[j]? := by
  induction ds with
  | nil => intro i toks sum rec ht j _; rfl
  | cons d rest ih =>
    intro i toks sum rec ht j hk
    by_cases hij : i = j
    · have hd := hk 0 d (by simp) (by omega)
      obtain ⟨⟨c, rfl⟩, htoks⟩ := hd
      simp only [parseToLoopV2, stepV2_skip c i toks sum rec ht (by omega)]
      exact ih (i + 1) toks sum rec ht j
        (fun k d' hkd hik => absurd hik (by omega))
    · simp only [parseToLoopV2]
      have hne := stepV2_getElem_ne d i toks sum rec ht j (fun h => hij h.symm)
      cases hstep : stepV2 d i toks sum rec ht with
      | mk r hb =>
        cases hb with
        | mk h' oe =>
          rw [hstep] at hne
          simp only at hne
          cases oe with
          | none =>
            rw [ih (i + 1) toks sum r h' j
              (fun k d' hkd hik => hk (k + 1) d' (by simpa using hkd) (by omega))]
            exact hne
          | some e => exact hne

theorem parseToV2_fst (schema : List Desc) (toks : List (List Nat)) (sum : Int) :
    (parseToV2 schema toks sum).1 =
      (parseToLoopV2 schema 0 toks sum (schema.map zeroOf) false).1 := by
  unfold parseToV2
  cases h : parseToLoopV2 schema 0 toks sum (schema.map zeroOf) false with
  | mk r hb =>
    cases hb with
    | mk h' oe => cases oe <;> rfl

theorem parseToV2_snd (schema : List Desc) (toks : List (List Nat)) (sum : Int) :
    (parseToV2 schema toks sum).2 =
      (match (parseToLoopV2 schema 0 toks sum (schema.map zeroOf) false).2 with
       | (ht, none) => if ht then none else some Err.missingType
       | (_, some e) => some e) := by
  unfold parseToV2
  cases h : parseToLoopV2 schema 0 toks sum (schema.map zeroOf) false with
  | mk r hb =>
    cases hb with
    | mk h' oe => cases oe <;> rfl

theorem mAssemble_zero_aux (b6 : List Nat) :
    ∀ (cnt st : Nat), (∀ j, st ≤ j → j < st + cnt → bitOf b6 j = 0) →
      (List.range' st cnt).foldl (fun a i => 2 * a + bitOf b6 i) 0 = 0 := by
  intro cnt
  induction cnt with
  | zero => intro st _; rfl
  | succ m ih =>
    intro st h
    rw [List.range'_succ, List.foldl_cons]
    rw [h st (Nat.le_refl st) (by omega)]
    exact ih (st + 1) (fun j h1 h2 => h j (by omega) (by omega))

theorem mAssemble_zero (b6 : List Nat) (s e : Nat)
    (h : ∀ j, s ≤ j → j < e → bitOf b6 j = 0) : mAssemble b6 s e = 0 := by
  unfold mAssemble
  exact mAssemble_zero_aux b6 (e - s) s (fun j h1 h2 => h j h1 (by omega))

set_option maxRecDepth 10000

/-- C6: `DeArmorAIS` maps each input character `c` to `v = c - '0'`,
subtracting 8 when `v > 40`, producing exactly one symbol per character
with every symbol in range 0–63; any character outside `'0'..'w'` or
inside the excluded band `'X'..'_'` makes it fail with the bad-armor
error; the empty string yields an empty buffer and no error. -/
theorem deArmorAIS_spec :
    (∀ data : List Nat, (∀ c ∈ data, validArmor c) →
        DeArmorAIS data = (data.map armSym, none)) ∧
    (∀ c : Nat, validArmor c → armSym c ≤ 63) ∧
    (∀ data : List Nat, ((DeArmorAIS data).1).length = data.length) ∧
    (∀ (data : List Nat) (c : Nat), c ∈ data → ¬validArmor c →
        (DeArmorAIS data).2 = some .badBinary) ∧
    DeArmorAIS [] = ([], none) := by
  refine ⟨?_, ?_, ?_, ?_, rfl⟩
  · intro data
    induction data with
    | nil => intro _; rfl
    | cons b rest ih =>
      intro hv
      have hb := hv b (List.mem_cons_self b rest)
      have hcond : ¬(b < 48 ∨ 119 < b ∨ (88 ≤ b ∧ b ≤ 95)) := by
        unfold validArmor at hb
        omega
      show (if b < 48 ∨ 119 < b ∨ (88 ≤ b ∧ b ≤ 95) then
          (List.replicate (rest.length + 1) 0, some Err.badBinary)
        else (armSym b :: (DeArmorAIS rest).1, (DeArmorAIS rest).2)) = _
      rw [if_neg hcond, ih (fun c hc => hv c (List.mem_cons_of_mem b hc))]
      simp
  · intro c hv
    unfold validArmor at hv
    simp only [armSym]
    split_ifs <;> omega
  · intro data
    induction data with
    | nil => rfl
    | cons b rest ih =>
      show ((if b < 48 ∨ 119 < b ∨ (88 ≤ b ∧ b ≤ 95) then
          (List.replicate (rest.length + 1) 0, some Err.badBinary)
        else (armSym b :: (DeArmorAIS rest).1, (DeArmorAIS rest).2)).1).length = _
      split_ifs with h
      · simp
      · simp only [List.length_cons, ih]
  · intro data
    induction data with
    | nil => intro c hc _; simp at hc
    | cons b rest ih =>
      intro c hc hcv
      show (if b < 48 ∨ 119 < b ∨ (88 ≤ b ∧ b ≤ 95) then
          (List.replicate (rest.length + 1) 0, some Err.badBinary)
        else (armSym b :: (DeArmorAIS rest).1, (DeArmorAIS rest).2)).2 = _
      split_ifs with h
      · rfl
      · have hbv : validArmor b := by unfold validArmor; omega
        cases List.mem_cons.mp hc with
        | inl hcb => exact absurd (hcb ▸ hbv) hcv
        | inr hcr => exact ih c hcr hcv

/-- C6 witness: the general statements applied at concrete inputs — the
valid payload `"1@"`, the bound at `c = 'w'`, and the invalid byte `'"'`
(0x22, below `'0'`). -/
theorem deArmorAIS_spec_witness :
    (∀ c ∈ ([49, 64] : List Nat), validArmor c) ∧
    DeArmorAIS [49, 64] = ([1, 16], none) ∧
    validArmor 119 ∧ armSym 119 ≤ 63 ∧
    (34 ∈ ([49, 34] : List Nat) ∧ ¬validArmor 34) ∧
    (DeArmorAIS [49, 34]).2 = some .badBinary := by
  refine ⟨by decide, ?_, by decide, ?_, ⟨by decide, by decide⟩, ?_⟩
  · have h := deArmorAIS_spec.1 [49, 64] (by decide)
    simpa using h
  · exact deArmorAIS_spec.2.1 119 (by decide)
  · exact deArmorAIS_spec.2.2.2.1 [49, 34] 34 (by decide) (by decide)

/-- C7: `AISBitField` with `start = end` (at a legal, non-negative index)
returns an empty result, and every out-of-range request — negative start
or end, `end < start`, or a non-empty range addressing bits beyond the
symbol buffer — panics (modelled as `none`) rather than returning a
value. -/
theorem aisBitField_bounds :
    (∀ (b6 : List Nat) (s : Int), 0 ≤ s → AISBitField b6 s s = some []) ∧
    (∀ (b6 : List Nat) (s e : Int), s < 0 ∨ e < 0 ∨ e < s →
        AISBitField b6 s e = none) ∧
    (∀ (b6 : List Nat) (s e : Nat), s < e → 6 * b6.length < e →
        AISBitField b6 (s : Int) (e : Int) = none) := by
  refine ⟨?_, ?_, ?_⟩
  · intro b6 s hs
    unfold AISBitField
    rw [if_neg (by omega), if_pos rfl]
  · intro b6 s e h
    unfold AISBitField
    rw [if_pos h]
  · intro b6 s e hlt hbeyond
    exact AISBitField_beyond b6 s e hlt hbeyond

/-- C7 witness: the empty range at index 3 of a one-symbol buffer, a
negative start, and the range `[2, 10)` of a one-symbol (6-bit) buffer. -/
theorem aisBitField_bounds_witness :
    AISBitField [1] 3 3 = some [] ∧
    AISBitField [1] (-1) 2 = none ∧
    ((2 : Nat) < 10 ∧ 6 * ([1] : List Nat).length < 10 ∧
      AISBitField [1] (2 : Nat) (10 : Nat) = none) := by
  refine ⟨?_, ?_, by decide, by decide, ?_⟩
  · exact aisBitField_bounds.1 [1] 3 (by omega)
  · exact aisBitField_bounds.2.1 [1] (-1) 2 (by omega)
  · exact aisBitField_bounds.2.2 [1] 2 10 (by omega) (by decide)

/-- C4 (counterexample): at `b6 = [1]`, `s = 5`, `e = 6` the code returns
`[0x01]`, while the claim's formula — MSB-first assembly with the last
extracted bit least significant, right-shifted by
`(6 - ((e - s) % 6)) % 6 = 5` — yields the empty byte string: the code
additionally shifts the assembly left by `s`. -/
theorem aisBitField_formula_counterexample :
    AISBitField [1] (5 : Int) (6 : Int) = some [1] ∧
    specBitField [1] 5 6 = [] ∧
    ([1] : List Nat) ≠ [] := by
  refine ⟨by decide, by decide, by decide⟩

/-- C4 (amended): for every symbol buffer and in-range pair `s ≤ e`,
`AISBitField` reads bit `i` from `b6[i / 6]` at bit position
`5 - (i % 6)` and places it at bit position `e - 1 - (i - s)` of the
accumulator, so the result is the MSB-first assembly shifted left by `s`
(for `s = 0` the last extracted bit is least significant), right-shifted
by `(6 - ((e - s) % 6)) % 6` and serialized big-endian; in particular
de-armoring `"1@0000000000000"` yields `[0x01, 0x10, 0x00 × 13]` and
extracting bits `[0, 15·6 - 2)` yields `[0x01, 0x40, 0x00 × 9]`. -/
theorem aisBitField_assembly_shifted :
    (∀ (b6 : List Nat) (s e : Nat), s ≤ e → e ≤ 6 * b6.length →
        AISBitField b6 (s : Int) (e : Int) =
          some (natToBytes ((mAssemble b6 s e * 2 ^ s) >>>
            ((6 - (e - s) % 6) % 6)))) ∧
    DeArmorAIS [49, 64, 48, 48, 48, 48, 48, 48, 48, 48, 48, 48, 48, 48, 48] =
      ([1, 16, 0, 0, 0, 0, 0, 0, 0, 0, 0, 0, 0, 0, 0], none) ∧
    AISBitField [1, 16, 0, 0, 0, 0, 0, 0, 0, 0, 0, 0, 0, 0, 0] (0 : Int)
        ((15 * 6 - 2 : Nat) : Int) =
      some [1, 64, 0, 0, 0, 0, 0, 0, 0, 0, 0] := by
  refine ⟨fun b6 s e hse he => AISBitField_eq b6 s e hse he, by decide, by decide⟩

/-- C4 witness: the general equation applied at the example buffer with
`s = 0`, `e = 88`. -/
theorem aisBitField_assembly_shifted_witness :
    (0 : Nat) ≤ 88 ∧ 88 ≤ 6 * ([1, 16, 0, 0, 0, 0, 0, 0, 0, 0, 0, 0, 0, 0, 0] : List Nat).length ∧
    AISBitField [1, 16, 0, 0, 0, 0, 0, 0, 0, 0, 0, 0, 0, 0, 0] ((0 : Nat) : Int) ((88 : Nat) : Int) =
      some (natToBytes ((mAssemble [1, 16, 0, 0, 0, 0, 0, 0, 0, 0, 0, 0, 0, 0, 0] 0 88 * 2 ^ 0) >>>
        ((6 - (88 - 0) % 6) % 6))) := by
  exact ⟨by omega, by decide,
    aisBitField_assembly_shifted.1 [1, 16, 0, 0, 0, 0, 0, 0, 0, 0, 0, 0, 0, 0, 0] 0 88
      (by omega) (by decide)⟩

/-- C10: `AISBitField` serializes the extracted bits as the minimal
big-endian byte representation: leading all-zero bytes are dropped (a
non-empty result has a positive head), the result can be shorter than
`⌈(e - s) / 8⌉` bytes, and a bit range whose bits are all zero yields the
empty byte slice. -/
theorem aisBitField_minimal_bytes :
    (∀ (b6 : List Nat) (s e : Nat), s ≤ e → e ≤ 6 * b6.length →
        (∀ j, s ≤ j → j < e → bitOf b6 j = 0) →
        AISBitField b6 (s : Int) (e : Int) = some []) ∧
    (∀ (b6 : List Nat) (s e : Int) (l : List Nat), AISBitField b6 s e = some l →
        l = [] ∨ ∃ hd tl, l = hd :: tl ∧ 0 < hd) ∧
    (AISBitField [0, 1] (0 : Int) (12 : Int) = some [1] ∧
      ([1] : List Nat).length < (12 - 0 + 7) / 8) := by
  refine ⟨?_, ?_, by decide, by decide⟩
  · intro b6 s e hse he hz
    rw [AISBitField_eq b6 s e hse he, mAssemble_zero b6 s e hz]
    rw [show (0 : Nat) * 2 ^ s = 0 by ring, Nat.zero_shiftRight]
    rfl
  · intro b6 s e l h
    unfold AISBitField at h
    split at h
    · exact absurd h (by simp)
    · split at h
      · left
        exact (Option.some_inj.mp h).symm
      · split at h
        · exact absurd h (by simp)
        · cases hloop : aisLoop b6 s.toNat e.toNat with
          | none => rw [hloop] at h; exact absurd h (by simp)
          | some bits =>
            rw [hloop] at h
            simp only [Option.some_inj] at h
            by_cases hz : bits >>> ((6 - (e.toNat - s.toNat) % 6) % 6) = 0
            · left
              rw [← h, hz]
              rfl
            · right
              obtain ⟨hd, tl, heq, hpos⟩ := natToBytes_pos _ hz
              exact ⟨hd, tl, by rw [← h, heq], hpos⟩

/-- C10 witness: the all-zero range `[0, 12)` of `[0, 0]` yields the empty
slice, and the minimality disjunction applied at the one-byte result of
extracting `[0, 12)` from `[0, 1]`. -/
theorem aisBitField_minimal_bytes_witness :
    ((0 : Nat) ≤ 12 ∧ 12 ≤ 6 * ([0, 0] : List Nat).length ∧
      AISBitField [0, 0] ((0 : Nat) : Int) ((12 : Nat) : Int) = some []) ∧
    (([1] : List Nat) = [] ∨ ∃ hd tl, ([1] : List Nat) = hd :: tl ∧ 0 < hd) := by
  constructor
  · refine ⟨by omega, by decide, ?_⟩
    exact aisBitField_minimal_bytes.1 [0, 0] 0 12 (by omega) (by decide)
      (fun j h0 hj => by interval_cases j <;> decide)
  · exact aisBitField_minimal_bytes.2.1 [0, 1] 0 12 [1] (by decide)

/-- C1 (counterexample): in the first parser revision a checksum mismatch
short-circuits: on `"$GPABC,7*00"` (declared checksum `0x00`, computed
`0x4C`) `Parse` returns a nil record with `ChecksumMismatch` — not the
populated record — and `ParseTo` returns before decoding, leaving the
destination at its zero values. -/
theorem parseV1_mismatch_short_circuits :
    ParseV1
      (fun t => if t = [71, 80, 65, 66, 67] then
          some [Desc.typeLit [71, 80, 65, 66, 67], Desc.conv (.num true 64)]
        else none)
      [36, 71, 80, 65, 66, 67, 44, 55, 42, 48, 48] = (none, some Err.checksum) ∧
    ParseToV1 [Desc.typeLit [71, 80, 65, 66, 67], Desc.conv (.num true 64)]
      [36, 71, 80, 65, 66, 67, 44, 55, 42, 48, 48] =
      ([FieldVal.str [], FieldVal.int 0], some Err.checksum) := by
  exact ⟨by decide, by decide⟩

/-- C1 (amended): in the second parser revision, for every sentence whose
declared checksum parses as hex but differs from the computed XOR, field
decoding still proceeds on the tokens and `ChecksumMismatch` is returned
after decoding; `Parse` returns the record populated by decoding together
with `ChecksumMismatch` provided the type token is registered (in the
first revision the mismatch short-circuits before decoding and `Parse`
returns no record). -/
theorem parseV2_mismatch_decodes_and_reports :
    (∀ (schema : List Desc) (T H : List Nat) (w : Int),
      42 ∉ T → 4 ≤ T.length + H.length → parseIntHex8 H = .ok w →
      (checksum T : Int) ≠ w →
      ParseToV2 schema (36 :: (T ++ 42 :: H)) =
        ((parseToV2 schema (splitComma T) w).1, some .checksum)) ∧
    (∀ (reg : Registry) (schema : List Desc) (T H : List Nat) (w : Int),
      42 ∉ T → 4 ≤ T.length + H.length → parseIntHex8 H = .ok w →
      (checksum T : Int) ≠ w →
      reg ((splitComma T).headD []) = some schema →
      ParseV2 reg (36 :: (T ++ 42 :: H)) =
        (some (parseToV2 schema (splitComma T) w).1, some .checksum)) :=
  ⟨fun schema T H w h42 hlen hw hne =>
      ParseToV2_star_mismatch schema T H w h42 hlen hw hne,
   fun reg schema T H w h42 hlen hw hne hreg =>
      ParseV2_star_mismatch reg schema T H w h42 hlen hw hne hreg⟩

/-- C1 witness: the amended statement applied to `"$GPABC,7*00"`
(computed checksum `0x4C ≠ 0x00`): both entry points of the second
revision return the fully decoded record `(type "GPABC", 7)` together
with `ChecksumMismatch`. -/
theorem parseV2_mismatch_decodes_and_reports_witness :
    (42 ∉ ([71, 80, 65, 66, 67, 44, 55] : List Nat)) ∧
    parseIntHex8 [48, 48] = .ok 0 ∧
    (checksum [71, 80, 65, 66, 67, 44, 55] : Int) ≠ 0 ∧
    ParseToV2 [Desc.typeLit [71, 80, 65, 66, 67], Desc.conv (.num true 64)]
        (36 :: ([71, 80, 65, 66, 67, 44, 55] ++ 42 :: [48, 48])) =
      ((parseToV2 [Desc.typeLit [71, 80, 65, 66, 67], Desc.conv (.num true 64)]
          (splitComma [71, 80, 65, 66, 67, 44, 55]) 0).1, some .checksum) ∧
    ParseV2
        (fun t => if t = [71, 80, 65, 66, 67] then
            some [Desc.typeLit [71, 80, 65, 66, 67], Desc.conv (.num true 64)]
          else none)
        (36 :: ([71, 80, 65, 66, 67, 44, 55] ++ 42 :: [48, 48])) =
      (some (parseToV2 [Desc.typeLit [71, 80, 65, 66, 67], Desc.conv (.num true 64)]
          (splitComma [71, 80, 65, 66, 67, 44, 55]) 0).1, some .checksum) := by
  refine ⟨by decide, rfl, by decide, ?_, ?_⟩
  · exact parseV2_mismatch_decodes_and_reports.1
      [Desc.typeLit [71, 80, 65, 66, 67], Desc.conv (.num true 64)]
      [71, 80, 65, 66, 67, 44, 55] [48, 48] 0 (by decide) (by decide) rfl (by decide)
  · exact parseV2_mismatch_decodes_and_reports.2
      (fun t => if t = [71, 80, 65, 66, 67] then
          some [Desc.typeLit [71, 80, 65, 66, 67], Desc.conv (.num true 64)]
        else none)
      [Desc.typeLit [71, 80, 65, 66, 67], Desc.conv (.num true 64)]
      [71, 80, 65, 66, 67, 44, 55] [48, 48] 0 (by decide) (by decide) rfl (by decide) rfl

/-- C9: in the second parser revision, when the computed checksum differs
from the declared one the returned error is `ChecksumMismatch` even if a
field-conversion or type error occurred during decoding (the decode error
is discarded), and `Parse` still returns the partially populated record
alongside that error. -/
theorem mismatch_overrides_decode_error :
    (∀ (schema : List Desc) (T H : List Nat) (w : Int) (e : Err),
      42 ∉ T → 4 ≤ T.length + H.length → parseIntHex8 H = .ok w →
      (checksum T : Int) ≠ w →
      (parseToV2 schema (splitComma T) w).2 = some e →
      (ParseToV2 schema (36 :: (T ++ 42 :: H))).2 = some .checksum) ∧
    (∀ (reg : Registry) (schema : List Desc) (T H : List Nat) (w : Int) (e : Err),
      42 ∉ T → 4 ≤ T.length + H.length → parseIntHex8 H = .ok w →
      (checksum T : Int) ≠ w →
      (parseToV2 schema (splitComma T) w).2 = some e →
      reg ((splitComma T).headD []) = some schema →
      ParseV2 reg (36 :: (T ++ 42 :: H)) =
        (some (parseToV2 schema (splitComma T) w).1, some .checksum)) := by
  constructor
  · intro schema T H w e h42 hlen hw hne _
    rw [ParseToV2_star_mismatch schema T H w h42 hlen hw hne]
  · intro reg schema T H w e h42 hlen hw hne _ hreg
    exact ParseV2_star_mismatch reg schema T H w h42 hlen hw hne hreg

/-- C9 witness: `"$GPABC,xx*00"` — the number converter fails on `"xx"`
with a syntax error and the computed checksum `0x7B` differs from the
declared `0x00`; both entry points report `ChecksumMismatch`, and `Parse`
returns the partially populated record (type field set, number at zero). -/
theorem mismatch_overrides_decode_error_witness :
    (parseToV2 [Desc.typeLit [71, 80, 65, 66, 67], Desc.conv (.num true 64)]
        (splitComma [71, 80, 65, 66, 67, 44, 120, 120]) 0).2 = some .syntaxErr ∧
    (checksum [71, 80, 65, 66, 67, 44, 120, 120] : Int) ≠ 0 ∧
    (ParseToV2 [Desc.typeLit [71, 80, 65, 66, 67], Desc.conv (.num true 64)]
        (36 :: ([71, 80, 65, 66, 67, 44, 120, 120] ++ 42 :: [48, 48]))).2 =
      some .checksum ∧
    ParseV2
        (fun t => if t = [71, 80, 65, 66, 67] then
            some [Desc.typeLit [71, 80, 65, 66, 67], Desc.conv (.num true 64)]
          else none)
        (36 :: ([71, 80, 65, 66, 67, 44, 120, 120] ++ 42 :: [48, 48])) =
      (some (parseToV2 [Desc.typeLit [71, 80, 65, 66, 67], Desc.conv (.num true 64)]
          (splitComma [71, 80, 65, 66, 67, 44, 120, 120]) 0).1, some .checksum) := by
  refine ⟨by decide, by decide, ?_, ?_⟩
  · exact mismatch_overrides_decode_error.1
      [Desc.typeLit [71, 80, 65, 66, 67], Desc.conv (.num true 64)]
      [71, 80, 65, 66, 67, 44, 120, 120] [48, 48] 0 .syntaxErr
      (by decide) (by decide) rfl (by decide) (by decide)
  · exact mismatch_overrides_decode_error.2
      (fun t => if t = [71, 80, 65, 66, 67] then
          some [Desc.typeLit [71, 80, 65, 66, 67], Desc.conv (.num true 64)]
        else none)
      [Desc.typeLit [71, 80, 65, 66, 67], Desc.conv (.num true 64)]
      [71, 80, 65, 66, 67, 44, 120, 120] [48, 48] 0 .syntaxErr
      (by decide) (by decide) rfl (by decide) (by decide) rfl

/-- C2 (counterexample): the claim fails in two ways.  Corrupting the
character at index 2 of `T = "GPABC,7"` (declared checksum `4C`, which is
correct) to `'*'` yields `"$GP*BC,7*4C"`, which fails with a hex-syntax
error — the first `*` moves — not with `ChecksumMismatch`.  And a
sentence whose two hex digits `FF` correctly equal the XOR of its body
`[0x41, 0x42, 0xFC]` fails with a range error, because the declared
checksum is parsed as a signed 8-bit integer. -/
theorem checksum_law_counterexample :
    ParseToV2 [Desc.typeLit [71, 80, 65, 66, 67], Desc.conv (.num true 64)]
        [36, 71, 80, 42, 66, 67, 44, 55, 42, 52, 67] =
      ([FieldVal.str [], FieldVal.int 0], some Err.syntaxErr) ∧
    checksum [65, 66, 252] = 255 ∧
    ParseToV2 [Desc.typeLit [71, 80, 65, 66, 67], Desc.conv (.num true 64)]
        [36, 65, 66, 252, 42, 70, 70] =
      ([FieldVal.str [], FieldVal.int 0], some Err.rangeErr) := by
  exact ⟨by decide, by decide, by decide⟩

/-- C2 (amended): for sentences `<sigil>T*HH` whose two hex digits have
value at most `0x7F` (the declared checksum is parsed as a *signed* 8-bit
integer, so `0x80`–`0xFF` fail with a range error), with `T` free of `*`:
if the XOR of the bytes of `T` equals the digits' value, the checksum
layer is transparent — `ParseTo` behaves exactly as field decoding on the
tokens and `Parse` as registry lookup plus decoding, so neither fails
with a checksum or checksum-parse error; and corrupting any single byte
of `T` to a different value other than `*` yields `ChecksumMismatch`. -/
theorem checksum_law_signed_range :
    (∀ (schema : List Desc) (T : List Nat) (d1 d2 : Nat),
      42 ∉ T → 2 ≤ T.length →
      isHexDigit d1 = true → isHexDigit d2 = true →
      16 * hexVal d1 + hexVal d2 = checksum T → checksum T ≤ 127 →
      ParseToV2 schema (36 :: (T ++ 42 :: [d1, d2])) =
        parseToV2 schema (splitComma T) ((checksum T : Nat) : Int)) ∧
    (∀ (reg : Registry) (T : List Nat) (d1 d2 : Nat),
      42 ∉ T → 2 ≤ T.length →
      isHexDigit d1 = true → isHexDigit d2 = true →
      16 * hexVal d1 + hexVal d2 = checksum T → checksum T ≤ 127 →
      ParseV2 reg (36 :: (T ++ 42 :: [d1, d2])) =
        lookupParse reg (splitComma T) ((checksum T : Nat) : Int)) ∧
    (∀ (schema : List Desc) (T : List Nat) (d1 d2 : Nat) (j c : Nat)
      (hj : j < T.length),
      42 ∉ T → 2 ≤ T.length →
      isHexDigit d1 = true → isHexDigit d2 = true →
      16 * hexVal d1 + hexVal d2 = checksum T → checksum T ≤ 127 →
      c ≠ T.get ⟨j, hj⟩ → c ≠ 42 → c < 256 →
      (ParseToV2 schema (36 :: (T.set j c ++ 42 :: [d1, d2]))).2 =
        some .checksum) ∧
    (∀ (reg : Registry) (schema : List Desc) (T : List Nat) (d1 d2 : Nat)
      (j c : Nat) (hj : j < T.length),
      42 ∉ T → 2 ≤ T.length →
      isHexDigit d1 = true → isHexDigit d2 = true →
      16 * hexVal d1 + hexVal d2 = checksum T → checksum T ≤ 127 →
      c ≠ T.get ⟨j, hj⟩ → c ≠ 42 → c < 256 →
      reg ((splitComma (T.set j c)).headD []) = some schema →
      (ParseV2 reg (36 :: (T.set j c ++ 42 :: [d1, d2]))).2 =
        some .checksum) := by
  have hw : ∀ (T : List Nat) (d1 d2 : Nat), isHexDigit d1 = true →
      isHexDigit d2 = true → 16 * hexVal d1 + hexVal d2 = checksum T →
      checksum T ≤ 127 →
      parseIntHex8 [d1, d2] = .ok ((checksum T : Nat) : Int) := by
    intro T d1 d2 h1 h2 hsum hle
    rw [← hsum]
    exact parseIntHex8_two d1 d2 h1 h2 (by omega)
  have hmem : ∀ (T : List Nat) (j c : Nat), 42 ∉ T → c ≠ 42 → 42 ∉ T.set j c := by
    intro T j c h42 hc42 hmem
    cases List.mem_or_eq_of_mem_set hmem with
    | inl h => exact h42 h
    | inr h => exact hc42 h.symm
  have hckne : ∀ (T : List Nat) (j c : Nat) (hj : j < T.length),
      c ≠ T.get ⟨j, hj⟩ →
      (checksum (T.set j c) : Int) ≠ ((checksum T : Nat) : Int) := by
    intro T j c hj hne
    have h := checksum_set T j hj c (by simpa using hne)
    exact_mod_cast h
  refine ⟨?_, ?_, ?_, ?_⟩
  · intro schema T d1 d2 h42 hlen h1 h2 hsum hle
    exact ParseToV2_star_ok schema T [d1, d2] _ h42 (by simp; omega)
      (hw T d1 d2 h1 h2 hsum hle) rfl
  · intro reg T d1 d2 h42 hlen h1 h2 hsum hle
    exact ParseV2_star_ok reg T [d1, d2] _ h42 (by simp; omega)
      (hw T d1 d2 h1 h2 hsum hle) rfl
  · intro schema T d1 d2 j c hj h42 hlen h1 h2 hsum hle hne hc42 hc256
    rw [ParseToV2_star_mismatch schema (T.set j c) [d1, d2] _
      (hmem T j c h42 hc42) (by simp [List.length_set]; omega)
      (hw T d1 d2 h1 h2 hsum hle) (hckne T j c hj hne)]
  · intro reg schema T d1 d2 j c hj h42 hlen h1 h2 hsum hle hne hc42 hc256 hreg
    rw [ParseV2_star_mismatch reg schema (T.set j c) [d1, d2] _
      (hmem T j c h42 hc42) (by simp [List.length_set]; omega)
      (hw T d1 d2 h1 h2 hsum hle) (hckne T j c hj hne) hreg]

/-- C2 witness: `T = "GPABC,7"` whose XOR is `0x4C`, declared as `"4C"` —
the checksum layer is transparent for both entry points — and corrupting
index 0 (`'G'` to `'A'`) yields `ChecksumMismatch`. -/
theorem checksum_law_signed_range_witness :
    (16 * hexVal 52 + hexVal 67 = checksum [71, 80, 65, 66, 67, 44, 55] ∧
      checksum [71, 80, 65, 66, 67, 44, 55] ≤ 127) ∧
    ParseToV2 [Desc.typeLit [71, 80, 65, 66, 67], Desc.conv (.num true 64)]
        (36 :: ([71, 80, 65, 66, 67, 44, 55] ++ 42 :: [52, 67])) =
      parseToV2 [Desc.typeLit [71, 80, 65, 66, 67], Desc.conv (.num true 64)]
        (splitComma [71, 80, 65, 66, 67, 44, 55])
        ((checksum [71, 80, 65, 66, 67, 44, 55] : Nat) : Int) ∧
    ParseV2
        (fun t => if t = [71, 80, 65, 66, 67] then
            some [Desc.typeLit [71, 80, 65, 66, 67], Desc.conv (.num true 64)]
          else none)
        (36 :: ([71, 80, 65, 66, 67, 44, 55] ++ 42 :: [52, 67])) =
      lookupParse
        (fun t => if t = [71, 80, 65, 66, 67] then
            some [Desc.typeLit [71, 80, 65, 66, 67], Desc.conv (.num true 64)]
          else none)
        (splitComma [71, 80, 65, 66, 67, 44, 55])
        ((checksum [71, 80, 65, 66, 67, 44, 55] : Nat) : Int) ∧
    (ParseToV2 [Desc.typeLit [71, 80, 65, 66, 67], Desc.conv (.num true 64)]
        (36 :: (([71, 80, 65, 66, 67, 44, 55] : List Nat).set 0 65 ++
          42 :: [52, 67]))).2 = some .checksum ∧
    (ParseV2
        (fun t => if t = [65, 80, 65, 66, 67] then
            some [Desc.typeLit [71, 80, 65, 66, 67], Desc.conv (.num true 64)]
          else none)
        (36 :: (([71, 80, 65, 66, 67, 44, 55] : List Nat).set 0 65 ++
          42 :: [52, 67]))).2 = some .checksum := by
  refine ⟨⟨by decide, by decide⟩, ?_, ?_, ?_, ?_⟩
  · exact checksum_law_signed_range.1
      [Desc.typeLit [71, 80, 65, 66, 67], Desc.conv (.num true 64)]
      [71, 80, 65, 66, 67, 44, 55] 52 67
      (by decide) (by decide) (by decide) (by decide) (by decide) (by decide)
  · exact checksum_law_signed_range.2.1
      (fun t => if t = [71, 80, 65, 66, 67] then
          some [Desc.typeLit [71, 80, 65, 66, 67], Desc.conv (.num true 64)]
        else none)
      [71, 80, 65, 66, 67, 44, 55] 52 67
      (by decide) (by decide) (by decide) (by decide) (by decide) (by decide)
  · exact checksum_law_signed_range.2.2.1
      [Desc.typeLit [71, 80, 65, 66, 67], Desc.conv (.num true 64)]
      [71, 80, 65, 66, 67, 44, 55] 52 67 0 65 (by decide)
      (by decide) (by decide) (by decide) (by decide) (by decide) (by decide)
      (by decide) (by decide) (by decide)
  · exact checksum_law_signed_range.2.2.2
      (fun t => if t = [65, 80, 65, 66, 67] then
          some [Desc.typeLit [71, 80, 65, 66, 67], Desc.conv (.num true 64)]
        else none)
      [Desc.typeLit [71, 80, 65, 66, 67], Desc.conv (.num true 64)]
      [71, 80, 65, 66, 67, 44, 55] 52 67 0 65 (by decide)
      (by decide) (by decide) (by decide) (by decide) (by decide) (by decide)
      (by decide) (by decide) (by decide) rfl

/-- C5: every non-type, non-checksum descriptor positioned beyond the
token list is skipped silently: the corresponding field keeps its
converter's zero value in the decoded record (for any schema), and when
every descriptor beyond the tokens is a converter, padding or checksum
field, decoding gives exactly the same error outcome as decoding the
schema truncated at the token count; in particular a five-descriptor
schema given three tokens decodes successfully with the two missing
fields at their zero values. -/
theorem trailing_fields_skipped :
    (∀ (schema : List Desc) (toks : List (List Nat)) (sum : Int) (j : Nat)
      (c : Conv), schema[j]? = some (.conv c) → toks.length ≤ j →
      ((parseToV2 schema toks sum).1)[j]? = some (zeroOf (.conv c))) ∧
    (∀ (schema : List Desc) (toks : List (List Nat)) (sum : Int),
      (∀ d ∈ schema.drop toks.length, tailSafe d) →
      (parseToV2 schema toks sum).2 =
        (parseToV2 (schema.take toks.length) toks sum).2) ∧
    parseToV2 [.typeLit [71, 80, 65, 66, 67], .conv (.num true 64), .conv .str,
        .conv (.num true 64), .conv .str] [[71, 80, 65, 66, 67], [55], [120]] 0 =
      ([.str [71, 80, 65, 66, 67], .int 7, .str [120], .int 0, .str []], none) := by
  refine ⟨?_, ?_, by decide⟩
  · intro schema toks sum j c hj htoks
    rw [parseToV2_fst]
    rw [loopV2_untouched schema 0 toks sum (schema.map zeroOf) false j ?_]
    · rw [List.getElem?_map, hj]
      rfl
    · intro k d hkd hkj
      have hk : k = j := by omega
      subst hk
      rw [hj] at hkd
      have hd : d = .conv c := by
        cases hkd
        rfl
      exact ⟨⟨c, hd⟩, htoks⟩
  · intro schema toks sum htail
    by_cases hlen : schema.length ≤ toks.length
    · rw [List.take_of_length_le hlen]
    · have hlt : toks.length < schema.length := by omega
      have hsch : schema.take toks.length ++ schema.drop toks.length = schema :=
        List.take_append_drop toks.length schema
      have hAlen : (schema.take toks.length).length = toks.length := by
        rw [List.length_take]
        omega
      rw [parseToV2_snd schema, parseToV2_snd (schema.take toks.length)]
      cases hA : parseToLoopV2 (schema.take toks.length) 0 toks sum
          (schema.map zeroOf) false with
      | mk rA pA =>
        cases pA with
        | mk htA oeA =>
          have hirrel := loopV2_snd_irrel (schema.take toks.length) 0 toks sum
            ((schema.take toks.length).map zeroOf) (schema.map zeroOf) false
          rw [hA] at hirrel
          cases oeA with
          | some e =>
            have hfull : parseToLoopV2 schema 0 toks sum (schema.map zeroOf) false =
                (rA, htA, some e) := by
              nth_rewrite 1 [← hsch]
              exact loopV2_append_err (schema.take toks.length)
                (schema.drop toks.length) 0 toks sum (schema.map zeroOf) false
                rA htA e hA
            rw [hfull, hirrel]
          | none =>
            have hfull : parseToLoopV2 schema 0 toks sum (schema.map zeroOf) false =
                parseToLoopV2 (schema.drop toks.length)
                  (0 + (schema.take toks.length).length) toks sum rA htA := by
              nth_rewrite 1 [← hsch]
              exact loopV2_append_ok (schema.take toks.length)
                (schema.drop toks.length) 0 toks sum (schema.map zeroOf) false
                rA htA hA
            have htailsnd := loopV2_tail_safe (schema.drop toks.length)
              (0 + (schema.take toks.length).length) toks sum rA htA
              (by omega) htail
            rw [hfull, htailsnd, hirrel]

/-- C5 witness: the zero-value statement at descriptor 3 of the
five-descriptor schema with three tokens, and the truncation statement at
the same schema. -/
theorem trailing_fields_skipped_witness :
    ((parseToV2 [.typeLit [71, 80, 65, 66, 67], .conv (.num true 64), .conv .str,
        .conv (.num true 64), .conv .str] [[71, 80, 65, 66, 67], [55], [120]] 0).1)[3]? =
      some (zeroOf (.conv (.num true 64))) ∧
    (parseToV2 [.typeLit [71, 80, 65, 66, 67], .conv (.num true 64), .conv .str,
        .conv (.num true 64), .conv .str] [[71, 80, 65, 66, 67], [55], [120]] 0).2 =
      (parseToV2 ([.typeLit [71, 80, 65, 66, 67], .conv (.num true 64), .conv .str,
        .conv (.num true 64), .conv .str].take 3) [[71, 80, 65, 66, 67], [55], [120]] 0).2 := by
  constructor
  · exact trailing_fields_skipped.1
      [.typeLit [71, 80, 65, 66, 67], .conv (.num true 64), .conv .str,
        .conv (.num true 64), .conv .str]
      [[71, 80, 65, 66, 67], [55], [120]] 0 3 (.num true 64) rfl (by decide)
  · exact trailing_fields_skipped.2.1
      [.typeLit [71, 80, 65, 66, 67], .conv (.num true 64), .conv .str,
        .conv (.num true 64), .conv .str]
      [[71, 80, 65, 66, 67], [55], [120]] 0
      (by
        intro d hd
        simp only [List.drop] at hd
        cases hd with
        | head => exact Or.inl ⟨.num true 64, rfl⟩
        | tail _ h2 =>
          cases h2 with
          | head => exact Or.inl ⟨.str, rfl⟩
          | tail _ h3 => cases h3)

/-- C8 (counterexample): with the schema `[number field, Type field]` and
the single token `"x"`, field decoding fails with the number converter's
syntax error, not with `LateTypeField`, although a type-tagged descriptor
occurs at position 1: an earlier converter failure preempts both the
late-type and the missing-type check. -/
theorem late_type_preempted_by_converter_error :
    parseToV2 [.conv (.num true 64), .typeLit [71, 80]] [[120]] 0 =
      ([.int 0, .str []], some .syntaxErr) ∧
    isTypeDesc (Desc.typeLit [71, 80]) ∧
    Err.syntaxErr ≠ Err.lateType :=
  ⟨by decide, Or.inl ⟨[71, 80], rfl⟩, by decide⟩

/-- C8 (amended): a type-tagged descriptor at a position other than 0
means decoding never succeeds, and fails with `LateTypeField` provided no
earlier descriptor fails first; the absence of any type-tagged descriptor
means decoding never succeeds, and fails with `MissingTypeField` when the
field loop completes without another error — the check after the loop. -/
theorem late_and_missing_type_checks :
    (∀ (schema : List Desc) (toks : List (List Nat)) (sum : Int) (p : Nat)
      (d : Desc), schema[p]? = some d → isTypeDesc d → p ≠ 0 →
      (parseToLoopV2 (schema.take p) 0 toks sum (schema.map zeroOf) false).2.2 =
        none →
      (parseToV2 schema toks sum).2 = some .lateType) ∧
    (∀ (schema : List Desc) (toks : List (List Nat)) (sum : Int) (p : Nat)
      (d : Desc), schema[p]? = some d → isTypeDesc d → p ≠ 0 →
      (parseToV2 schema toks sum).2 ≠ none) ∧
    (∀ (schema : List Desc) (toks : List (List Nat)) (sum : Int),
      (∀ d ∈ schema, ¬isTypeDesc d) →
      (parseToLoopV2 schema 0 toks sum (schema.map zeroOf) false).2.2 = none →
      (parseToV2 schema toks sum).2 = some .missingType) ∧
    (∀ (schema : List Desc) (toks : List (List Nat)) (sum : Int),
      (∀ d ∈ schema, ¬isTypeDesc d) →
      (parseToV2 schema toks sum).2 ≠ none) := by
  refine ⟨?_, ?_, ?_, ?_⟩
  · intro schema toks sum p d hp htype hp0 hpre
    have hplt : p < schema.length := by
      by_contra hge
      rw [List.getElem?_eq_none (by omega)] at hp
      cases hp
    have hget : schema[p] = d := by
      have := List.getElem?_eq_getElem hplt
      rw [hp] at this
      cases this
      rfl
    have hdrop : schema.drop p = d :: schema.drop (p + 1) := by
      rw [List.drop_eq_getElem_cons hplt, hget]
    have hsch : schema.take p ++ (d :: schema.drop (p + 1)) = schema := by
      rw [← hdrop]
      exact List.take_append_drop p schema
    have hAlen : (schema.take p).length = p := by
      rw [List.length_take]
      omega
    cases hA : parseToLoopV2 (schema.take p) 0 toks sum (schema.map zeroOf)
        false with
    | mk rA pA =>
      cases pA with
      | mk htA oeA =>
        rw [hA] at hpre
        simp only at hpre
        subst hpre
        have hfull : parseToLoopV2 schema 0 toks sum (schema.map zeroOf) false =
            parseToLoopV2 (d :: schema.drop (p + 1))
              (0 + (schema.take p).length) toks sum rA htA := by
          nth_rewrite 1 [← hsch]
          exact loopV2_append_ok (schema.take p) (d :: schema.drop (p + 1))
            0 toks sum (schema.map zeroOf) false rA htA hA
        have hstep : parseToLoopV2 (d :: schema.drop (p + 1))
            (0 + (schema.take p).length) toks sum rA htA =
            (rA, htA, some Err.lateType) := by
          rw [hAlen]
          cases htype with
          | inl hl =>
            obtain ⟨t, rfl⟩ := hl
            simp [parseToLoopV2, stepV2, hp0]
          | inr hr =>
            obtain ⟨ok, cl, co, rfl⟩ := hr
            simp [parseToLoopV2, stepV2, hp0]
        rw [parseToV2_snd, hfull, hstep]
  · intro schema toks sum p d hp htype hp0
    rw [parseToV2_snd]
    have hlate := loopV2_late_type schema 0 toks sum (schema.map zeroOf) false
      p d hp htype (by omega)
    cases hL : parseToLoopV2 schema 0 toks sum (schema.map zeroOf) false with
    | mk r pb =>
      cases pb with
      | mk ht oe =>
        rw [hL] at hlate
        cases oe with
        | none => exact absurd rfl hlate
        | some e => simp
  · intro schema toks sum hno hpre
    have hht := loopV2_ht_not_type schema 0 toks sum (schema.map zeroOf) false hno
    rw [parseToV2_snd]
    cases hL : parseToLoopV2 schema 0 toks sum (schema.map zeroOf) false with
    | mk r pb =>
      cases pb with
      | mk ht oe =>
        rw [hL] at hht hpre
        simp only at hht hpre
        subst hht
        subst hpre
        rfl
  · intro schema toks sum hno
    have hht := loopV2_ht_not_type schema 0 toks sum (schema.map zeroOf) false hno
    rw [parseToV2_snd]
    cases hL : parseToLoopV2 schema 0 toks sum (schema.map zeroOf) false with
    | mk r pb =>
      cases pb with
      | mk ht oe =>
        rw [hL] at hht
        simp only at hht
        subst hht
        cases oe with
        | none => simp
        | some e => simp

/-- C8 witness: the late-type statement applied to the schema
`[string field, Type field]` with one token (the string converter cannot
fail, so the loop reaches the misplaced type descriptor), and the
missing-type statement applied to the schema `[string field]`. -/
theorem late_and_missing_type_checks_witness :
    (parseToV2 [.conv .str, .typeLit [71, 80]] [[120]] 0).2 = some .lateType ∧
    (parseToV2 [.conv .str, .typeLit [71, 80]] [[120]] 0).2 ≠ none ∧
    (parseToV2 [.conv .str] [[120]] 0).2 = some .missingType ∧
    (parseToV2 [.conv .str] [[120]] 0).2 ≠ none := by
  have hno : ∀ d ∈ ([.conv .str] : List Desc), ¬isTypeDesc d := by
    intro d hd
    simp only [List.mem_singleton] at hd
    subst hd
    intro h
    rcases h with ⟨t, ht⟩ | ⟨ok, cl, co, hpp⟩
    · exact Desc.noConfusion ht
    · exact Desc.noConfusion hpp
  refine ⟨?_, ?_, ?_, ?_⟩
  · exact late_and_missing_type_checks.1 [.conv .str, .typeLit [71, 80]]
      [[120]] 0 1 (.typeLit [71, 80]) rfl (Or.inl ⟨[71, 80], rfl⟩)
      (by omega) (by decide)
  · exact late_and_missing_type_checks.2.1 [.conv .str, .typeLit [71, 80]]
      [[120]] 0 1 (.typeLit [71, 80]) rfl (Or.inl ⟨[71, 80], rfl⟩) (by omega)
  · exact late_and_missing_type_checks.2.2.1 [.conv .str] [[120]] 0 hno
      (by decide)
  · exact late_and_missing_type_checks.2.2.2 [.conv .str] [[120]] 0 hno
